import Mathlib

/-!
Verification of the OTA container codec of `cargo-hfmp` (`src/main.rs`).

The embedding models the pure core of the tool: building an OTA container
(512-byte packed header followed by an 8-byte-aligned payload, with a
CRC-16/IBM-SDLC checksum patched into header bytes 4-5) and validating such
a container.  Bytes are modelled as `Nat` values (`< 256` in the image of
the Rust `u8` type); machine-integer casts are explicit `% 2^w` operations.
-/

set_option maxRecDepth 100000

/-- Little-endian bytes of a `u16` value (`u16::to_le_bytes`). -/
def le16 (n : Nat) : List Nat := [n % 256, n / 256 % 256]

/-- Little-endian bytes of a `u32` value. -/
def le32 (n : Nat) : List Nat :=
  [n % 256, n / 256 % 256, n / 65536 % 256, n / 16777216 % 256]

/-- Little-endian bytes of a `u64` value: low 4 bytes then high 4 bytes. -/
def le64 (n : Nat) : List Nat := le32 (n % 4294967296) ++ le32 (n / 4294967296)

/-- Value of a little-endian byte list. -/
def leVal : List Nat → Nat
  | [] => 0
  | b :: rest => b + 256 * leVal rest

/-- The `len` bytes of `bs` starting at offset `off`. -/
def sliceBytes (bs : List Nat) (off len : Nat) : List Nat := (bs.drop off).take len

/-- Little-endian read of `len` bytes at offset `off`. -/
def readLE (bs : List Nat) (off len : Nat) : Nat := leVal (sliceBytes bs off len)

/-- One shift-and-conditional-xor round of the bit-reflected CRC-16/IBM-SDLC
(X.25) algorithm: reversed polynomial `0x8408`. -/
def crcRound (c : Nat) : Nat := if c % 2 = 1 then c / 2 ^^^ 0x8408 else c / 2

/-- `n` rounds of `crcRound`. -/
def crcRounds : Nat → Nat → Nat
  | 0, c => c
  | n + 1, c => crcRounds n (crcRound c)

/-- Absorb one message byte into the CRC state: xor it in, then run 8 rounds.
This is the byte step of the `crc` crate's `CRC_16_IBM_SDLC` algorithm
(refin = refout = true). -/
def crcUpdate (c b : Nat) : Nat := crcRounds 8 (c ^^^ b)

/-- `Crc::<u16>::new(&CRC_16_IBM_SDLC).checksum(data)`: init `0xFFFF`,
process every byte, xor out with `0xFFFF`. -/
def crc16 (data : List Nat) : Nat := (data.foldl crcUpdate 0xFFFF) ^^^ 0xFFFF

/-- `MAGIC_WORD` constant of `main.rs`. -/
def MAGIC_WORD : Nat := 0xABCD5432

/-- The `#[repr(packed)] struct OtaHead` of `main.rs`.  Multi-byte integers
are `Nat` images of `u32`/`u16`/`u64`; the byte-array fields are byte lists
(of lengths 32, 16 and 446 wherever a header is actually built or parsed). -/
structure OtaHead where
  magic_word : Nat
  crc : Nat
  version : List Nat
  project_name : List Nat
  timestamp : Nat
  size : Nat
  reserved : List Nat
deriving DecidableEq

/-- `OtaHead::as_bytes` (zerocopy `IntoBytes` on the packed struct): the
fields laid out in declaration order, little-endian, with no padding. -/
def OtaHead.asBytes (h : OtaHead) : List Nat :=
  le32 h.magic_word ++ le16 h.crc ++ h.version ++ h.project_name
    ++ le64 h.timestamp ++ le32 h.size ++ h.reserved

/-- `OtaHead::try_read_from_bytes` (zerocopy `TryFromBytes`).  For this
struct every field type (`u32`, `u16`, `u64`, `[u8; N]`) admits every bit
pattern and the struct is packed, so the only way the zerocopy read can
fail is a size mismatch: the input must be exactly the 512 bytes of the
struct.  On success each field is read from its fixed offset. -/
def OtaHead.tryReadFromBytes (bs : List Nat) : Option OtaHead :=
  if bs.length = 512 then
    some
      { magic_word := readLE bs 0 4
        crc := readLE bs 4 2
        version := sliceBytes bs 6 32
        project_name := sliceBytes bs 38 16
        timestamp := readLE bs 54 8
        size := readLE bs 62 4
        reserved := sliceBytes bs 66 446 }
  else none

/-- The padding loop of `encode`: `while file_bytes.len() % 8 != 0` push
`0xFF`.  The loop appends exactly `(8 - len % 8) % 8` fill bytes. -/
def padTo8 (l : List Nat) : List Nat :=
  l ++ List.replicate ((8 - l.length % 8) % 8) 0xFF

/-- Copying a short byte string into a zero-initialised fixed buffer of `k`
bytes (`buf[..s.len()].copy_from_slice(&s)` on `[0u8; k]`). -/
def padField (l : List Nat) (k : Nat) : List Nat :=
  l ++ List.replicate (k - l.length) 0

/-- Encode-side failures.  The source panics with messages naming the field
("git hash is too long" for the version string, "project name is too
long"); the model carries the field name. -/
inductive EncodeError
  | FieldTooLong : String → EncodeError
deriving DecidableEq

/-- The surgical checksum patch of `encode`: `total_bytes[4] = crc_bytes[0];
total_bytes[5] = crc_bytes[1]` with `crc_bytes = crc.to_le_bytes()`. -/
def patchCrc (buf : List Nat) (c : Nat) : List Nat :=
  (buf.set 4 (c % 256)).set 5 (c / 256 % 256)

/-- The container as assembled before the checksum patch: the serialized
header (crc field still the 0 placeholder) followed by the padded payload.
`size` carries the `as u32` cast and `timestamp` the `u64` type of
`as_secs`.  (The source's `while ota_bytes.len() < 512` fill loop is dead:
the struct serializes to exactly 512 bytes.) -/
def encodeUnpatched (pn ver payload : List Nat) (ts : Nat) : List Nat :=
  OtaHead.asBytes
    { magic_word := MAGIC_WORD
      crc := 0
      version := padField (ver ++ [0]) 32
      project_name := padField (pn ++ [0]) 16
      timestamp := ts % 2 ^ 64
      size := (padTo8 payload).length % 2 ^ 32
      reserved := List.replicate 446 0 }
    ++ padTo8 payload

/-- The pure core of `encode`: length-check the version string (the git
hash, checked first in the source) and the project name, null-terminate and
zero-pad both into their fixed fields, pad the payload to 8-byte alignment
with `0xFF`, serialize the header, append the payload, compute
CRC-16/IBM-SDLC over bytes 6.. and patch it into bytes 4-5. -/
def encode (pn ver payload : List Nat) (ts : Nat) : Except EncodeError (List Nat) :=
  if 31 < ver.length then .error (.FieldTooLong "version")
  else if 15 < pn.length then .error (.FieldTooLong "project name")
  else
    let buf := encodeUnpatched pn ver payload ts
    .ok (patchCrc buf (crc16 (buf.drop 6)))

/-- Decode-side failures, in the order `decode` can report them. -/
inductive DecodeError
  | TooShort
  | Malformed
  | BadMagic
  | ChecksumMismatch : Nat → Nat → DecodeError
deriving DecidableEq

/-- What `decode` reports on success: the `project_name` and `version`
fields exactly as stored (the source prints `String::from_utf8_lossy` of
the full fixed-size arrays), the raw `timestamp` (its RFC-3339 rendering is
display plumbing) and the `size` field. -/
structure Summary where
  project_name : List Nat
  version : List Nat
  timestamp : Nat
  size : Nat
deriving DecidableEq

/-- The pure core of `decode`: length check, structural header parse, magic
check, then CRC over bytes 6.. of the whole input compared with the stored
`crc` field (`ChecksumMismatch expected actual` carries the stored value
then the recomputed one, as the source's error message does). -/
def decode (bytes : List Nat) : Except DecodeError Summary :=
  if bytes.length < 512 then .error .TooShort
  else
    match OtaHead.tryReadFromBytes (bytes.take 512) with
    | none => .error .Malformed
    | some h =>
      if h.magic_word ≠ MAGIC_WORD then .error .BadMagic
      else
        let actual := crc16 (bytes.drop 6)
        if actual ≠ h.crc then .error (.ChecksumMismatch h.crc actual)
        else .ok
          { project_name := h.project_name
            version := h.version
            timestamp := h.timestamp
            size := h.size }

/-- The bytes of the container from offset 6 on: header tail then padded
payload.  This is exactly the checksummed range. -/
def encBody (pn ver payload : List Nat) (ts : Nat) : List Nat :=
  padField (ver ++ [0]) 32 ++ (padField (pn ++ [0]) 16 ++ (le64 (ts % 2 ^ 64)
    ++ (le32 ((padTo8 payload).length % 2 ^ 32)
      ++ (List.replicate 446 0 ++ padTo8 payload))))

/-- The final container returned by `encode`, as an explicit byte shape:
magic (LE), the patched checksum bytes, then the checksummed tail. -/
def shaped (pn ver payload : List Nat) (ts c : Nat) : List Nat :=
  0x32 :: 0x54 :: 0xCD :: 0xAB :: (c % 256) :: (c / 256 % 256) ::
    encBody pn ver payload ts

/-- Flip bit `k` of the byte at offset `i`. -/
def flipBit (bytes : List Nat) (i k : Nat) : List Nat :=
  bytes.set i (bytes.getD i 0 ^^^ 2 ^ k)

/-- "demo" as bytes. -/
def demoName : List Nat := [100, 101, 109, 111]

/-- "abc123" as bytes. -/
def demoVersion : List Nat := [97, 98, 99, 49, 50, 51]

def demoPayload : List Nat := [1, 2, 3]

/-- The container produced by `encode "demo" "abc123" [1,2,3]` at
timestamp 0. -/
def demoContainer : List Nat :=
  shaped demoName demoVersion demoPayload 0
    (crc16 (encBody demoName demoVersion demoPayload 0))

/-- What `decode` actually reports for the demo container: the fixed-size
fields in full, nulls included. -/
def demoSummary : Summary :=
  { project_name := demoName ++ List.replicate 12 0
    version := demoVersion ++ List.replicate 26 0
    timestamp := 0
    size := 8 }

/-- Following the spec's words: the project name and version are reported
"decoded, trailing nulls stripped".  This is the spec-side reference
function for that phrase. -/
def stripTrailingNulls (l : List Nat) : List Nat :=
  (l.reverse.dropWhile (fun b => b == 0)).reverse

/-- 506 zero bytes: the checksummed tail of an all-zero 512-byte buffer. -/
def zeroBody : List Nat := List.replicate 506 0

/-- A 512-byte buffer with zero magic but a self-consistent checksum. -/
def badMagicCtr : List Nat := 0 :: 0 :: 0 :: 0 :: (le16 (crc16 zeroBody) ++ zeroBody)

/-- A 512-byte buffer with correct magic whose stored checksum is the true
checksum with its low bit flipped. -/
def mismatchCtr : List Nat :=
  0x32 :: 0x54 :: 0xCD :: 0xAB :: (le16 (crc16 zeroBody ^^^ 1) ++ zeroBody)

/-- The checksummed tail of a container whose `size` field claims 100 bytes
of payload while the container carries none. -/
def sizeLieBody : List Nat :=
  List.replicate 32 0 ++ (List.replicate 16 0 ++ (List.replicate 8 0
    ++ (le32 100 ++ List.replicate 446 0)))

/-- A 512-byte container, valid magic and checksum, whose `size` field is
100 although no payload follows the header. -/
def sizeLieCtr : List Nat :=
  0x32 :: 0x54 :: 0xCD :: 0xAB :: (le16 (crc16 sizeLieBody) ++ sizeLieBody)

/-- The CRC-16/IBM-SDLC check value: the checksum of "123456789" is
0x906E. -/
theorem crc16_check_value :
    crc16 [0x31, 0x32, 0x33, 0x34, 0x35, 0x36, 0x37, 0x38, 0x39] = 0x906E := by decide

/-! ### Little-endian readback and length facts -/

theorem leVal_le16 {n : Nat} (h : n < 2 ^ 16) : leVal (le16 n) = n := by
  simp only [le16, leVal]
  omega

theorem leVal_le32 {n : Nat} (h : n < 2 ^ 32) : leVal (le32 n) = n := by
  simp only [le32, leVal]
  omega

theorem leVal_le64 {n : Nat} (h : n < 2 ^ 64) : leVal (le64 n) = n := by
  simp only [le64, le32, List.cons_append, List.nil_append, leVal]
  omega

theorem length_le16 (n : Nat) : (le16 n).length = 2 := rfl

theorem length_le32 (n : Nat) : (le32 n).length = 4 := rfl

theorem length_le64 (n : Nat) : (le64 n).length = 8 := by
  simp [le64, le32]

theorem padField_length {l : List Nat} {k : Nat} (h : l.length ≤ k) :
    (padField l k).length = k := by
  simp [padField]
  omega

theorem padTo8_length (l : List Nat) :
    (padTo8 l).length = 8 * ((l.length + 7) / 8) := by
  simp [padTo8]
  omega

theorem mem_le16 {b n : Nat} (h : b ∈ le16 n) : b < 256 := by
  simp [le16] at h
  omega

theorem mem_le32 {b n : Nat} (h : b ∈ le32 n) : b < 256 := by
  simp [le32] at h
  omega

theorem mem_le64 {b n : Nat} (h : b ∈ le64 n) : b < 256 := by
  simp [le64, le32] at h
  omega

theorem mem_padField {b : Nat} {l : List Nat} {k : Nat} (h : b ∈ padField l k) :
    b ∈ l ∨ b = 0 := by
  simp [padField] at h
  rcases h with h | h
  · exact .inl h
  · exact .inr h.2

theorem mem_padTo8 {b : Nat} {l : List Nat} (h : b ∈ padTo8 l) : b ∈ l ∨ b = 255 := by
  simp [padTo8] at h
  rcases h with h | h
  · exact .inl h
  · exact .inr h.2

/-! ### CRC state stays a `u16` on byte input -/

theorem crcRound_lt {c : Nat} (h : c < 65536) : crcRound c < 65536 := by
  unfold crcRound
  split
  · have h1 : c / 2 < 2 ^ 16 := by omega
    have h2 : 0x8408 < 2 ^ 16 := by norm_num
    exact Nat.xor_lt_two_pow h1 h2
  · omega

theorem crcRounds_lt : ∀ (n : Nat) {c : Nat}, c < 65536 → crcRounds n c < 65536
  | 0, _, h => h
  | n + 1, _, h => crcRounds_lt n (crcRound_lt h)

theorem crcUpdate_lt {c b : Nat} (hc : c < 65536) (hb : b < 256) :
    crcUpdate c b < 65536 := by
  unfold crcUpdate
  exact crcRounds_lt 8 (Nat.xor_lt_two_pow (n := 16) (by omega) (by omega))

theorem foldl_crcUpdate_lt :
    ∀ {l : List Nat} {c : Nat}, c < 65536 → (∀ b ∈ l, b < 256) →
      l.foldl crcUpdate c < 65536
  | [], _, hc, _ => hc
  | b :: l, _, hc, hl => by
    simp only [List.foldl_cons]
    exact foldl_crcUpdate_lt (crcUpdate_lt hc (hl b (by simp)))
      fun x hx => hl x (by simp [hx])

theorem crc16_lt {l : List Nat} (h : ∀ b ∈ l, b < 256) : crc16 l < 65536 := by
  unfold crc16
  have h1 : l.foldl crcUpdate 0xFFFF < 65536 := foldl_crcUpdate_lt (by norm_num) h
  exact Nat.xor_lt_two_pow (n := 16) (by omega) (by omega)

/-! ### CRC is xor-linear, and a nonzero state difference never dies out -/

theorem xor_div_two (x y : Nat) : (x ^^^ y) / 2 = x / 2 ^^^ y / 2 := by
  apply Nat.eq_of_testBit_eq
  intro i
  simp [Nat.testBit_div_two]

theorem xor_mod_two (x y : Nat) : (x ^^^ y) % 2 = x % 2 ^^^ y % 2 := by
  rw [← Nat.and_one_is_mod, ← Nat.and_one_is_mod, ← Nat.and_one_is_mod,
    Nat.and_xor_distrib_right]

theorem xor_swap_right (a b p : Nat) : (a ^^^ b) ^^^ p = (a ^^^ p) ^^^ b := by
  rw [Nat.xor_assoc, Nat.xor_comm b p, ← Nat.xor_assoc]

theorem xor_pair_cancel (a b p : Nat) : (a ^^^ p) ^^^ (b ^^^ p) = a ^^^ b := by
  rw [Nat.xor_assoc, Nat.xor_comm b p, Nat.xor_cancel_left]

theorem crcRound_xor (x y : Nat) : crcRound (x ^^^ y) = crcRound x ^^^ crcRound y := by
  have hxy := xor_mod_two x y
  have hdiv := xor_div_two x y
  unfold crcRound
  rcases Nat.mod_two_eq_zero_or_one x with hx | hx <;>
    rcases Nat.mod_two_eq_zero_or_one y with hy | hy
  · have h0 : (x ^^^ y) % 2 = 0 := by rw [hxy, hx, hy]; decide
    rw [if_neg (by omega), if_neg (by omega), if_neg (by omega), hdiv]
  · have h1 : (x ^^^ y) % 2 = 1 := by rw [hxy, hx, hy]; decide
    rw [if_pos h1, if_neg (by omega), if_pos hy, hdiv, Nat.xor_assoc]
  · have h1 : (x ^^^ y) % 2 = 1 := by rw [hxy, hx, hy]; decide
    rw [if_pos h1, if_pos hx, if_neg (by omega), hdiv, xor_swap_right]
  · have h0 : (x ^^^ y) % 2 = 0 := by rw [hxy, hx, hy]; decide
    rw [if_neg (by omega), if_pos hx, if_pos hy, hdiv, xor_pair_cancel]

theorem crcRounds_xor : ∀ (n x y : Nat),
    crcRounds n (x ^^^ y) = crcRounds n x ^^^ crcRounds n y
  | 0, _, _ => rfl
  | n + 1, x, y => by
    show crcRounds n (crcRound (x ^^^ y)) = _
    rw [crcRound_xor]
    exact crcRounds_xor n _ _

theorem crcRounds_add : ∀ (m n x : Nat), crcRounds (m + n) x = crcRounds m (crcRounds n x)
  | _, 0, _ => rfl
  | m, n + 1, x => crcRounds_add m n (crcRound x)

theorem crcRound_ne_zero {c : Nat} (h0 : c ≠ 0) (h : c < 65536) : crcRound c ≠ 0 := by
  unfold crcRound
  by_cases hc : c % 2 = 1
  · rw [if_pos hc]
    intro hz
    have h2 : c / 2 = 0x8408 := Nat.xor_eq_zero.mp hz
    omega
  · rw [if_neg hc]
    intro hz
    omega

theorem crcRounds_ne_zero : ∀ (n : Nat) {c : Nat}, c ≠ 0 → c < 65536 → crcRounds n c ≠ 0
  | 0, _, h0, _ => h0
  | n + 1, _, h0, h => crcRounds_ne_zero n (crcRound_ne_zero h0 h) (crcRound_lt h)

theorem foldl_crcUpdate_xor : ∀ (l : List Nat) (c d : Nat),
    l.foldl crcUpdate (c ^^^ d) = l.foldl crcUpdate c ^^^ crcRounds (8 * l.length) d
  | [], c, d => by simp [crcRounds]
  | b :: l, c, d => by
    simp only [List.foldl_cons, List.length_cons]
    have h1 : crcUpdate (c ^^^ d) b = crcUpdate c b ^^^ crcRounds 8 d := by
      unfold crcUpdate
      rw [xor_swap_right, crcRounds_xor]
    rw [h1, foldl_crcUpdate_xor l (crcUpdate c b) (crcRounds 8 d), ← crcRounds_add]
    congr 2

theorem foldl_crcUpdate_flip : ∀ (l : List Nat) (i c e : Nat), i < l.length →
    (l.set i (l.getD i 0 ^^^ e)).foldl crcUpdate c
      = l.foldl crcUpdate c ^^^ crcRounds (8 * (l.length - i)) e
  | [], i, _, _, h => absurd h (by simp)
  | b :: l, 0, c, e, _ => by
    simp only [List.set_cons_zero, List.getD_cons_zero, List.foldl_cons, List.length_cons]
    have h1 : crcUpdate c (b ^^^ e) = crcUpdate c b ^^^ crcRounds 8 e := by
      unfold crcUpdate
      rw [← Nat.xor_assoc, crcRounds_xor]
    rw [h1, foldl_crcUpdate_xor l (crcUpdate c b) (crcRounds 8 e), ← crcRounds_add]
    congr 2
  | b :: l, i + 1, c, e, h => by
    simp only [List.set_cons_succ, List.getD_cons_succ, List.foldl_cons, List.length_cons]
    rw [foldl_crcUpdate_flip l i (crcUpdate c b) e (by simpa using h)]
    congr 2
    omega

theorem crc16_flip_ne {l : List Nat} {i e : Nat} (hi : i < l.length) (h0 : e ≠ 0)
    (he : e < 65536) : crc16 (l.set i (l.getD i 0 ^^^ e)) ≠ crc16 l := by
  unfold crc16
  rw [foldl_crcUpdate_flip l i 0xFFFF e hi, xor_swap_right]
  intro hEq
  apply crcRounds_ne_zero (8 * (l.length - i)) h0 he
  have h2 : crcRounds (8 * (l.length - i)) e
      = (l.foldl crcUpdate 0xFFFF ^^^ 0xFFFF)
        ^^^ ((l.foldl crcUpdate 0xFFFF ^^^ 0xFFFF) ^^^ crcRounds (8 * (l.length - i)) e) :=
    (Nat.xor_cancel_left _ _).symm
  rw [hEq, Nat.xor_self] at h2
  exact h2

/-! ### Characterizing `decode` on buffers of sufficient length -/

theorem sliceBytes_take {bs : List Nat} {off len k : Nat} (h : off + len ≤ k) :
    sliceBytes (bs.take k) off len = sliceBytes bs off len := by
  unfold sliceBytes
  rw [List.drop_take, List.take_take, Nat.min_eq_left (by omega)]

theorem tryReadFromBytes_take {bytes : List Nat} (h : 512 ≤ bytes.length) :
    OtaHead.tryReadFromBytes (bytes.take 512) =
      some
        { magic_word := readLE bytes 0 4
          crc := readLE bytes 4 2
          version := sliceBytes bytes 6 32
          project_name := sliceBytes bytes 38 16
          timestamp := readLE bytes 54 8
          size := readLE bytes 62 4
          reserved := sliceBytes bytes 66 446 } := by
  unfold OtaHead.tryReadFromBytes
  rw [if_pos (by simp [List.length_take]; omega)]
  simp only [readLE]
  rw [sliceBytes_take (show 0 + 4 ≤ 512 by omega),
      sliceBytes_take (show 4 + 2 ≤ 512 by omega),
      sliceBytes_take (show 6 + 32 ≤ 512 by omega),
      sliceBytes_take (show 38 + 16 ≤ 512 by omega),
      sliceBytes_take (show 54 + 8 ≤ 512 by omega),
      sliceBytes_take (show 62 + 4 ≤ 512 by omega),
      sliceBytes_take (show 66 + 446 ≤ 512 by omega)]

theorem decode_eq_of_length {bytes : List Nat} (h : 512 ≤ bytes.length) :
    decode bytes =
      if readLE bytes 0 4 ≠ MAGIC_WORD then .error .BadMagic
      else if crc16 (bytes.drop 6) ≠ readLE bytes 4 2 then
        .error (.ChecksumMismatch (readLE bytes 4 2) (crc16 (bytes.drop 6)))
      else .ok
        { project_name := sliceBytes bytes 38 16
          version := sliceBytes bytes 6 32
          timestamp := readLE bytes 54 8
          size := readLE bytes 62 4 } := by
  unfold decode
  rw [if_neg (by omega), tryReadFromBytes_take h]

theorem decode_tooShort {bytes : List Nat} (h : bytes.length < 512) :
    decode bytes = .error .TooShort := by
  unfold decode
  rw [if_pos h]

theorem decode_badMagic {bytes : List Nat} (h : 512 ≤ bytes.length)
    (hm : readLE bytes 0 4 ≠ MAGIC_WORD) : decode bytes = .error .BadMagic := by
  rw [decode_eq_of_length h, if_pos hm]

theorem decode_checksumMismatch {bytes : List Nat} (h : 512 ≤ bytes.length)
    (hm : readLE bytes 0 4 = MAGIC_WORD)
    (hc : crc16 (bytes.drop 6) ≠ readLE bytes 4 2) :
    decode bytes = .error (.ChecksumMismatch (readLE bytes 4 2) (crc16 (bytes.drop 6))) := by
  rw [decode_eq_of_length h, if_neg (by simp [hm]), if_pos hc]

theorem decode_ok {bytes : List Nat} (h : 512 ≤ bytes.length)
    (hm : readLE bytes 0 4 = MAGIC_WORD)
    (hc : crc16 (bytes.drop 6) = readLE bytes 4 2) :
    decode bytes = .ok
      { project_name := sliceBytes bytes 38 16
        version := sliceBytes bytes 6 32
        timestamp := readLE bytes 54 8
        size := readLE bytes 62 4 } := by
  rw [decode_eq_of_length h, if_neg (by simp [hm]), if_neg (by simp [hc])]

theorem decode_ok_inv {bytes : List Nat} {s : Summary} (h : decode bytes = .ok s) :
    512 ≤ bytes.length ∧ readLE bytes 0 4 = MAGIC_WORD
      ∧ crc16 (bytes.drop 6) = readLE bytes 4 2
      ∧ s = { project_name := sliceBytes bytes 38 16
              version := sliceBytes bytes 6 32
              timestamp := readLE bytes 54 8
              size := readLE bytes 62 4 } := by
  by_cases h512 : bytes.length < 512
  · rw [decode_tooShort h512] at h
    exact absurd h (by simp)
  · have h512 : 512 ≤ bytes.length := by omega
    rw [decode_eq_of_length h512] at h
    by_cases hm : readLE bytes 0 4 = MAGIC_WORD
    · rw [if_neg (by simp [hm])] at h
      by_cases hc : crc16 (bytes.drop 6) = readLE bytes 4 2
      · rw [if_neg (by simp [hc])] at h
        simp only [Except.ok.injEq] at h
        exact ⟨h512, hm, hc, h.symm⟩
      · rw [if_pos hc] at h
        exact absurd h (by simp)
    · rw [if_pos hm] at h
      exact absurd h (by simp)

/-! ### Characterizing `encode` -/

theorem encode_eq {pn ver payload : List Nat} {ts : Nat}
    (hp : pn.length ≤ 15) (hv : ver.length ≤ 31) :
    encode pn ver payload ts =
      .ok (patchCrc (encodeUnpatched pn ver payload ts)
        (crc16 ((encodeUnpatched pn ver payload ts).drop 6))) := by
  unfold encode
  rw [if_neg (by omega), if_neg (by omega)]

theorem encodeUnpatched_eq (pn ver payload : List Nat) (ts : Nat) :
    encodeUnpatched pn ver payload ts =
      0x32 :: 0x54 :: 0xCD :: 0xAB :: 0 :: 0 :: encBody pn ver payload ts := by
  unfold encodeUnpatched OtaHead.asBytes encBody
  norm_num [le32, le16, MAGIC_WORD, List.append_assoc]

theorem encode_eq_shape {pn ver payload : List Nat} {ts : Nat}
    (hp : pn.length ≤ 15) (hv : ver.length ≤ 31) :
    encode pn ver payload ts =
      .ok (0x32 :: 0x54 :: 0xCD :: 0xAB ::
        (crc16 (encBody pn ver payload ts) % 256) ::
        (crc16 (encBody pn ver payload ts) / 256 % 256) ::
        encBody pn ver payload ts) := by
  rw [encode_eq hp hv, encodeUnpatched_eq]
  rfl

theorem encBody_length {pn ver payload : List Nat} {ts : Nat}
    (hp : pn.length ≤ 15) (hv : ver.length ≤ 31) :
    (encBody pn ver payload ts).length = 506 + (padTo8 payload).length := by
  simp [encBody, padField, le64, le32]
  omega

theorem encBody_bytes_lt {pn ver payload : List Nat} {ts : Nat}
    (hpb : ∀ b ∈ pn, b < 256) (hvb : ∀ b ∈ ver, b < 256)
    (hyb : ∀ b ∈ payload, b < 256) :
    ∀ b ∈ encBody pn ver payload ts, b < 256 := by
  intro b hb
  simp only [encBody, List.mem_append] at hb
  rcases hb with hb | hb | hb | hb | hb | hb
  · rcases mem_padField hb with hb | hb
    · rcases List.mem_append.mp hb with hb | hb
      · exact hvb b hb
      · simp at hb
        omega
    · omega
  · rcases mem_padField hb with hb | hb
    · rcases List.mem_append.mp hb with hb | hb
      · exact hpb b hb
      · simp at hb
        omega
    · omega
  · exact mem_le64 hb
  · exact mem_le32 hb
  · simp at hb
    omega
  · rcases mem_padTo8 hb with hb | hb
    · exact hyb b hb
    · omega

theorem encode_eq_shaped {pn ver payload : List Nat} {ts : Nat}
    (hp : pn.length ≤ 15) (hv : ver.length ≤ 31) :
    encode pn ver payload ts =
      .ok (shaped pn ver payload ts (crc16 (encBody pn ver payload ts))) :=
  encode_eq_shape hp hv

theorem shaped_readLE_crc {pn ver payload : List Nat} {ts c : Nat} (hc : c < 65536) :
    readLE (shaped pn ver payload ts c) 4 2 = c := by
  have h : sliceBytes (shaped pn ver payload ts c) 4 2 = [c % 256, c / 256 % 256] := rfl
  show leVal (sliceBytes (shaped pn ver payload ts c) 4 2) = c
  rw [h]
  simp [leVal]
  omega

theorem decode_shaped {pn ver payload : List Nat} {ts c : Nat}
    (hp : pn.length ≤ 15) (hv : ver.length ≤ 31) (hc : c < 65536)
    (hcrc : crc16 (encBody pn ver payload ts) = c) :
    decode (shaped pn ver payload ts c) = .ok
      { project_name := padField (pn ++ [0]) 16
        version := padField (ver ++ [0]) 32
        timestamp := ts % 2 ^ 64
        size := (padTo8 payload).length % 2 ^ 32 } := by
  have hVlen : (padField (ver ++ [0]) 32).length = 32 := padField_length (by simp; omega)
  have hPlen : (padField (pn ++ [0]) 16).length = 16 := padField_length (by simp; omega)
  have h512 : 512 ≤ (shaped pn ver payload ts c).length := by
    simp [shaped, encBody_length hp hv]
  have hm : readLE (shaped pn ver payload ts c) 0 4 = MAGIC_WORD := by
    have hsl : sliceBytes (shaped pn ver payload ts c) 0 4 = [0x32, 0x54, 0xCD, 0xAB] := rfl
    show leVal (sliceBytes (shaped pn ver payload ts c) 0 4) = MAGIC_WORD
    rw [hsl]
    norm_num [leVal, MAGIC_WORD]
  have hstored : readLE (shaped pn ver payload ts c) 4 2 = c := shaped_readLE_crc hc
  have hdrop6 : (shaped pn ver payload ts c).drop 6 = encBody pn ver payload ts := rfl
  have hcrceq : crc16 ((shaped pn ver payload ts c).drop 6)
      = readLE (shaped pn ver payload ts c) 4 2 := by
    rw [hdrop6, hstored, hcrc]
  rw [decode_ok h512 hm hcrceq]
  have hver : sliceBytes (shaped pn ver payload ts c) 6 32 = padField (ver ++ [0]) 32 := by
    show ((shaped pn ver payload ts c).drop 6).take 32 = _
    rw [hdrop6]
    unfold encBody
    exact List.take_left' hVlen
  have hd38 : (shaped pn ver payload ts c).drop 38
      = padField (pn ++ [0]) 16 ++ (le64 (ts % 2 ^ 64)
        ++ (le32 ((padTo8 payload).length % 2 ^ 32)
          ++ (List.replicate 446 0 ++ padTo8 payload))) := by
    have h1 : ((shaped pn ver payload ts c).drop 6).drop 32
        = (shaped pn ver payload ts c).drop 38 := by rw [List.drop_drop]
    rw [← h1, hdrop6]
    unfold encBody
    exact List.drop_left' hVlen
  have hproj : sliceBytes (shaped pn ver payload ts c) 38 16 = padField (pn ++ [0]) 16 := by
    show ((shaped pn ver payload ts c).drop 38).take 16 = _
    rw [hd38]
    exact List.take_left' hPlen
  have hd54 : (shaped pn ver payload ts c).drop 54
      = le64 (ts % 2 ^ 64) ++ (le32 ((padTo8 payload).length % 2 ^ 32)
          ++ (List.replicate 446 0 ++ padTo8 payload)) := by
    have h1 : ((shaped pn ver payload ts c).drop 38).drop 16
        = (shaped pn ver payload ts c).drop 54 := by rw [List.drop_drop]
    rw [← h1, hd38]
    exact List.drop_left' hPlen
  have hts : readLE (shaped pn ver payload ts c) 54 8 = ts % 2 ^ 64 := by
    show leVal (((shaped pn ver payload ts c).drop 54).take 8) = _
    rw [hd54, List.take_left' (length_le64 _)]
    exact leVal_le64 (Nat.mod_lt _ (by norm_num))
  have hd62 : (shaped pn ver payload ts c).drop 62
      = le32 ((padTo8 payload).length % 2 ^ 32)
        ++ (List.replicate 446 0 ++ padTo8 payload) := by
    have h1 : ((shaped pn ver payload ts c).drop 54).drop 8
        = (shaped pn ver payload ts c).drop 62 := by rw [List.drop_drop]
    rw [← h1, hd54]
    exact List.drop_left' (length_le64 _)
  have hsz : readLE (shaped pn ver payload ts c) 62 4
      = (padTo8 payload).length % 2 ^ 32 := by
    show leVal (((shaped pn ver payload ts c).drop 62).take 4) = _
    rw [hd62, List.take_left' (length_le32 _)]
    exact leVal_le32 (Nat.mod_lt _ (by norm_num))
  rw [hver, hproj, hts, hsz]

theorem decode_encode {pn ver payload : List Nat} {ts : Nat} {buf : List Nat}
    (hp : pn.length ≤ 15) (hv : ver.length ≤ 31)
    (hpb : ∀ b ∈ pn, b < 256) (hvb : ∀ b ∈ ver, b < 256)
    (hyb : ∀ b ∈ payload, b < 256)
    (henc : encode pn ver payload ts = .ok buf) :
    decode buf = .ok
      { project_name := padField (pn ++ [0]) 16
        version := padField (ver ++ [0]) 32
        timestamp := ts % 2 ^ 64
        size := (padTo8 payload).length % 2 ^ 32 } := by
  rw [encode_eq_shaped hp hv] at henc
  have hbuf : buf = shaped pn ver payload ts (crc16 (encBody pn ver payload ts)) := by
    injection henc with h
    exact h.symm
  subst hbuf
  exact decode_shaped hp hv (crc16_lt (encBody_bytes_lt hpb hvb hyb)) rfl

/-! ### More facts about the shape of an encoded container -/

theorem shaped_length {pn ver payload : List Nat} {ts c : Nat}
    (hp : pn.length ≤ 15) (hv : ver.length ≤ 31) :
    (shaped pn ver payload ts c).length = 512 + (padTo8 payload).length := by
  simp [shaped, encBody_length hp hv]
  omega

theorem shaped_drop38 {pn ver payload : List Nat} {ts c : Nat}
    (hv : ver.length ≤ 31) :
    (shaped pn ver payload ts c).drop 38
      = padField (pn ++ [0]) 16 ++ (le64 (ts % 2 ^ 64)
        ++ (le32 ((padTo8 payload).length % 2 ^ 32)
          ++ (List.replicate 446 0 ++ padTo8 payload))) := by
  have hVlen : (padField (ver ++ [0]) 32).length = 32 := padField_length (by simp; omega)
  have hdrop6 : (shaped pn ver payload ts c).drop 6 = encBody pn ver payload ts := rfl
  have h1 : ((shaped pn ver payload ts c).drop 6).drop 32
      = (shaped pn ver payload ts c).drop 38 := by rw [List.drop_drop]
  rw [← h1, hdrop6]
  unfold encBody
  exact List.drop_left' hVlen

theorem shaped_drop54 {pn ver payload : List Nat} {ts c : Nat}
    (hp : pn.length ≤ 15) (hv : ver.length ≤ 31) :
    (shaped pn ver payload ts c).drop 54
      = le64 (ts % 2 ^ 64) ++ (le32 ((padTo8 payload).length % 2 ^ 32)
        ++ (List.replicate 446 0 ++ padTo8 payload)) := by
  have hPlen : (padField (pn ++ [0]) 16).length = 16 := padField_length (by simp; omega)
  have h1 : ((shaped pn ver payload ts c).drop 38).drop 16
      = (shaped pn ver payload ts c).drop 54 := by rw [List.drop_drop]
  rw [← h1, shaped_drop38 hv]
  exact List.drop_left' hPlen

theorem shaped_drop62 {pn ver payload : List Nat} {ts c : Nat}
    (hp : pn.length ≤ 15) (hv : ver.length ≤ 31) :
    (shaped pn ver payload ts c).drop 62
      = le32 ((padTo8 payload).length % 2 ^ 32)
        ++ (List.replicate 446 0 ++ padTo8 payload) := by
  have h1 : ((shaped pn ver payload ts c).drop 54).drop 8
      = (shaped pn ver payload ts c).drop 62 := by rw [List.drop_drop]
  rw [← h1, shaped_drop54 hp hv]
  exact List.drop_left' (length_le64 _)

theorem shaped_drop512 {pn ver payload : List Nat} {ts c : Nat}
    (hp : pn.length ≤ 15) (hv : ver.length ≤ 31) :
    (shaped pn ver payload ts c).drop 512 = padTo8 payload := by
  have h1 : ((shaped pn ver payload ts c).drop 62).drop 4
      = (shaped pn ver payload ts c).drop 66 := by rw [List.drop_drop]
  have h66 : (shaped pn ver payload ts c).drop 66
      = List.replicate 446 0 ++ padTo8 payload := by
    rw [← h1, shaped_drop62 hp hv]
    exact List.drop_left' (length_le32 _)
  have h2 : ((shaped pn ver payload ts c).drop 66).drop 446
      = (shaped pn ver payload ts c).drop 512 := by rw [List.drop_drop]
  rw [← h2, h66]
  exact List.drop_left' (List.length_replicate _ _)

theorem shaped_readLE_size {pn ver payload : List Nat} {ts c : Nat}
    (hp : pn.length ≤ 15) (hv : ver.length ≤ 31) :
    readLE (shaped pn ver payload ts c) 62 4 = (padTo8 payload).length % 2 ^ 32 := by
  show leVal (((shaped pn ver payload ts c).drop 62).take 4) = _
  rw [shaped_drop62 hp hv, List.take_left' (length_le32 _)]
  exact leVal_le32 (Nat.mod_lt _ (by norm_num))

theorem shaped_slice42 {pn ver payload : List Nat} {ts c : Nat} :
    sliceBytes (shaped pn ver payload ts c) 4 2 = le16 c := rfl

theorem patchCrc_length (buf : List Nat) (c : Nat) :
    (patchCrc buf c).length = buf.length := by
  simp [patchCrc]

theorem patchCrc_getD_ne {buf : List Nat} {c : Nat} (i d : Nat)
    (h4 : i ≠ 4) (h5 : i ≠ 5) : (patchCrc buf c).getD i d = buf.getD i d := by
  unfold patchCrc
  rw [List.getD_eq_getElem?_getD, List.getElem?_set_ne (by omega),
    List.getElem?_set_ne (by omega), ← List.getD_eq_getElem?_getD]

theorem patchCrc_unpatched (pn ver payload : List Nat) (ts c : Nat) :
    patchCrc (encodeUnpatched pn ver payload ts) c = shaped pn ver payload ts c := by
  rw [encodeUnpatched_eq]
  rfl

/-! ### Single-bit corruption -/

theorem getD_drop (l : List Nat) (n m : Nat) (d : Nat) :
    (l.drop n).getD m d = l.getD (n + m) d := by
  induction n generalizing l with
  | zero => simp
  | succ n ih =>
    cases l with
    | nil => simp
    | cons a l =>
      rw [List.drop_succ_cons, ih l, show n + 1 + m = (n + m) + 1 by omega,
        List.getD_cons_succ]

theorem sliceBytes_set_ge {l : List Nat} {v off len i : Nat} (h : off + len ≤ i) :
    sliceBytes (l.set i v) off len = sliceBytes l off len := by
  unfold sliceBytes
  rw [List.drop_set, if_neg (by omega), List.set_take]
  rw [List.set_eq_of_length_le]
  simp [List.length_take]
  omega

theorem drop_set_ge {l : List Nat} {v n i : Nat} (h : n ≤ i) :
    (l.set i v).drop n = (l.drop n).set (i - n) v := by
  rw [List.drop_set, if_neg (by omega)]

theorem flipBit_drop6 {bytes : List Nat} {i k : Nat} (h : 6 ≤ i) :
    (flipBit bytes i k).drop 6
      = (bytes.drop 6).set (i - 6) ((bytes.drop 6).getD (i - 6) 0 ^^^ 2 ^ k) := by
  unfold flipBit
  rw [drop_set_ge h, getD_drop, show 6 + (i - 6) = i by omega]

theorem crc16_flipBit_ne {bytes : List Nat} {i k : Nat}
    (h6 : 6 ≤ i) (hi : i < bytes.length) (hk : k < 8) :
    crc16 ((flipBit bytes i k).drop 6) ≠ crc16 (bytes.drop 6) := by
  rw [flipBit_drop6 h6]
  have hlen : i - 6 < (bytes.drop 6).length := by
    simp [List.length_drop]
    omega
  have hpow : (2 : Nat) ^ k ≤ 2 ^ 7 := Nat.pow_le_pow_right (by norm_num) (by omega)
  exact crc16_flip_ne hlen (by positivity) (by omega)

/-! ### The concrete demo scenario -/

theorem encode_demo :
    encode demoName demoVersion demoPayload 0 = .ok demoContainer :=
  encode_eq_shaped (by decide) (by decide)

theorem decode_demoContainer : decode demoContainer = .ok demoSummary := by
  have h := @decode_shaped demoName demoVersion demoPayload 0
    (crc16 (encBody demoName demoVersion demoPayload 0))
    (by decide) (by decide)
    (crc16_lt (encBody_bytes_lt (by decide) (by decide) (by decide)))
    rfl
  rw [show decode demoContainer
      = decode (shaped demoName demoVersion demoPayload 0
        (crc16 (encBody demoName demoVersion demoPayload 0))) from rfl, h]
  congr 1

/-! ### Hand-built containers for boundary cases -/

theorem xor_one_ne (a : Nat) : a ^^^ 1 ≠ a := by
  intro h
  have h2 : a ^^^ (a ^^^ 1) = a ^^^ a := by rw [h]
  rw [Nat.xor_cancel_left, Nat.xor_self] at h2
  exact absurd h2 (by norm_num)

theorem zeroBody_lt : ∀ b ∈ zeroBody, b < 256 := by
  intro b hb
  simp [zeroBody] at hb
  omega

theorem badMagicCtr_length : badMagicCtr.length = 512 := by
  simp [badMagicCtr, zeroBody, le16]

theorem badMagicCtr_magic : readLE badMagicCtr 0 4 = 0 := by
  have hsl : sliceBytes badMagicCtr 0 4 = [0, 0, 0, 0] := rfl
  show leVal (sliceBytes badMagicCtr 0 4) = 0
  rw [hsl]
  norm_num [leVal]

theorem badMagicCtr_crc_matches :
    crc16 (badMagicCtr.drop 6) = readLE badMagicCtr 4 2 := by
  have hdrop : badMagicCtr.drop 6 = zeroBody := rfl
  have hsl : sliceBytes badMagicCtr 4 2 = le16 (crc16 zeroBody) := rfl
  show _ = leVal (sliceBytes badMagicCtr 4 2)
  rw [hdrop, hsl, leVal_le16 (crc16_lt zeroBody_lt)]

theorem mismatchCtr_length : mismatchCtr.length = 512 := by
  simp [mismatchCtr, zeroBody, le16]

theorem mismatchCtr_magic : readLE mismatchCtr 0 4 = MAGIC_WORD := by
  have hsl : sliceBytes mismatchCtr 0 4 = [0x32, 0x54, 0xCD, 0xAB] := rfl
  show leVal (sliceBytes mismatchCtr 0 4) = MAGIC_WORD
  rw [hsl]
  norm_num [leVal, MAGIC_WORD]

theorem mismatchCtr_stored : readLE mismatchCtr 4 2 = crc16 zeroBody ^^^ 1 := by
  have hsl : sliceBytes mismatchCtr 4 2 = le16 (crc16 zeroBody ^^^ 1) := rfl
  show leVal (sliceBytes mismatchCtr 4 2) = _
  rw [hsl]
  exact leVal_le16 (Nat.xor_lt_two_pow (n := 16) (crc16_lt zeroBody_lt) (by norm_num))

theorem mismatchCtr_crc_differs :
    crc16 (mismatchCtr.drop 6) ≠ readLE mismatchCtr 4 2 := by
  have hdrop : mismatchCtr.drop 6 = zeroBody := rfl
  rw [hdrop, mismatchCtr_stored]
  exact fun h => xor_one_ne (crc16 zeroBody) h.symm

theorem sizeLieBody_lt : ∀ b ∈ sizeLieBody, b < 256 := by
  intro b hb
  simp only [sizeLieBody, List.mem_append] at hb
  rcases hb with hb | hb | hb | hb | hb
  · simp at hb
    omega
  · simp at hb
    omega
  · simp at hb
    omega
  · exact mem_le32 hb
  · simp at hb
    omega

theorem sizeLieCtr_length : sizeLieCtr.length = 512 := by
  simp [sizeLieCtr, sizeLieBody, le16, le32]

theorem sizeLieCtr_magic : readLE sizeLieCtr 0 4 = MAGIC_WORD := by
  have hsl : sliceBytes sizeLieCtr 0 4 = [0x32, 0x54, 0xCD, 0xAB] := rfl
  show leVal (sliceBytes sizeLieCtr 0 4) = MAGIC_WORD
  rw [hsl]
  norm_num [leVal, MAGIC_WORD]

theorem sizeLieCtr_crc_matches :
    crc16 (sizeLieCtr.drop 6) = readLE sizeLieCtr 4 2 := by
  have hdrop : sizeLieCtr.drop 6 = sizeLieBody := rfl
  have hsl : sliceBytes sizeLieCtr 4 2 = le16 (crc16 sizeLieBody) := rfl
  show _ = leVal (sliceBytes sizeLieCtr 4 2)
  rw [hdrop, hsl, leVal_le16 (crc16_lt sizeLieBody_lt)]

theorem sizeLieCtr_size : readLE sizeLieCtr 62 4 = 100 := by
  have hsl : sliceBytes sizeLieCtr 62 4 = le32 100 := rfl
  show leVal (sliceBytes sizeLieCtr 62 4) = 100
  rw [hsl]
  exact leVal_le32 (by norm_num)

/-! ### The claims -/

/-- Claim C1 (amended): for every project name of at most 15 bytes, version
string of at most 31 bytes, and byte payload, decoding the container
produced by encode succeeds and returns the project name and version
null-padded to their fixed 16- and 32-byte fields (not the bare input
strings: the trailing null padding is part of what decode reports), the
timestamp, and a size equal to the 8-byte-padded payload length. -/
theorem C1_roundtrip (pn ver payload : List Nat) (ts : Nat) (buf : List Nat)
    (hp : pn.length ≤ 15) (hv : ver.length ≤ 31)
    (hpb : ∀ b ∈ pn, b < 256) (hvb : ∀ b ∈ ver, b < 256)
    (hyb : ∀ b ∈ payload, b < 256)
    (hts : ts < 2 ^ 64) (hlen : (padTo8 payload).length < 2 ^ 32)
    (henc : encode pn ver payload ts = .ok buf) :
    decode buf = .ok
      { project_name := padField (pn ++ [0]) 16
        version := padField (ver ++ [0]) 32
        timestamp := ts
        size := (padTo8 payload).length } := by
  rw [decode_encode hp hv hpb hvb hyb henc, Nat.mod_eq_of_lt hts, Nat.mod_eq_of_lt hlen]

theorem C1_roundtrip_witness :
    decode demoContainer = .ok
      { project_name := padField (demoName ++ [0]) 16
        version := padField (demoVersion ++ [0]) 32
        timestamp := 0
        size := (padTo8 demoPayload).length } :=
  C1_roundtrip demoName demoVersion demoPayload 0 demoContainer (by decide) (by decide)
    (by decide) (by decide) (by decide) (by decide) (by decide) encode_demo

/-- Claim C1 fails as stated: decode does not return the same project name
and version string that were passed to encode — the returned fields carry
the trailing null padding of the 16- and 32-byte header fields. -/
theorem C1_counterexample :
    encode demoName demoVersion demoPayload 0 = .ok demoContainer
    ∧ decode demoContainer = .ok demoSummary
    ∧ demoSummary.project_name ≠ demoName
    ∧ demoSummary.version ≠ demoVersion :=
  ⟨encode_demo, decode_demoContainer, by decide, by decide⟩

/-- Claim C2: for every encode input, the returned container carries at
offsets 4-5 the two little-endian bytes of the CRC-16/IBM-SDLC checksum of
the container bytes from offset 6 to the end; the container is exactly the
assembled (header ++ padded payload) buffer with only those two bytes
overwritten (no re-serialization); and its length is 512 plus the padded
payload length. -/
theorem C2_checksum_patch (pn ver payload : List Nat) (ts : Nat) (buf : List Nat)
    (hp : pn.length ≤ 15) (hv : ver.length ≤ 31)
    (hpb : ∀ b ∈ pn, b < 256) (hvb : ∀ b ∈ ver, b < 256)
    (hyb : ∀ b ∈ payload, b < 256)
    (henc : encode pn ver payload ts = .ok buf) :
    buf.length = 512 + (padTo8 payload).length
    ∧ sliceBytes buf 4 2 = le16 (crc16 (buf.drop 6))
    ∧ readLE buf 4 2 = crc16 (buf.drop 6)
    ∧ buf = patchCrc (encodeUnpatched pn ver payload ts)
        (crc16 ((encodeUnpatched pn ver payload ts).drop 6))
    ∧ ∀ i, i ≠ 4 → i ≠ 5 →
        buf.getD i 0 = (encodeUnpatched pn ver payload ts).getD i 0 := by
  rw [encode_eq_shaped hp hv] at henc
  injection henc with h
  subst h
  refine ⟨shaped_length hp hv, rfl, ?_, ?_, ?_⟩
  · exact shaped_readLE_crc (crc16_lt (encBody_bytes_lt hpb hvb hyb))
  · have hd : (encodeUnpatched pn ver payload ts).drop 6 = encBody pn ver payload ts := by
      rw [encodeUnpatched_eq]
      rfl
    rw [hd, patchCrc_unpatched]
  · intro i h4 h5
    rw [← patchCrc_unpatched pn ver payload ts]
    exact patchCrc_getD_ne i 0 h4 h5

theorem C2_checksum_patch_witness :
    demoContainer.length = 520
    ∧ readLE demoContainer 4 2 = crc16 (demoContainer.drop 6) := by
  have h := C2_checksum_patch demoName demoVersion demoPayload 0 demoContainer
    (by decide) (by decide) (by decide) (by decide) (by decide) encode_demo
  refine ⟨?_, h.2.2.1⟩
  rw [h.1]
  decide

/-- Claim C3: decode checks in the fixed order length, structural parse,
magic, checksum: a buffer shorter than 512 bytes fails TooShort with no
field inspected; with sufficient length, a wrong magic word fails BadMagic
regardless of the checksum; with correct magic, a checksum mismatch fails
ChecksumMismatch (stored value first, recomputed second); otherwise decode
succeeds.  (The structural-parse stage sits between the length and magic
checks; it cannot fail on a 512-byte input, see C9.) -/
theorem C3_validation_order (bytes : List Nat) :
    (bytes.length < 512 → decode bytes = .error .TooShort)
    ∧ (512 ≤ bytes.length → readLE bytes 0 4 ≠ MAGIC_WORD →
        decode bytes = .error .BadMagic)
    ∧ (512 ≤ bytes.length → readLE bytes 0 4 = MAGIC_WORD →
        crc16 (bytes.drop 6) ≠ readLE bytes 4 2 →
        decode bytes
          = .error (.ChecksumMismatch (readLE bytes 4 2) (crc16 (bytes.drop 6))))
    ∧ (512 ≤ bytes.length → readLE bytes 0 4 = MAGIC_WORD →
        crc16 (bytes.drop 6) = readLE bytes 4 2 →
        decode bytes = .ok
          { project_name := sliceBytes bytes 38 16
            version := sliceBytes bytes 6 32
            timestamp := readLE bytes 54 8
            size := readLE bytes 62 4 }) :=
  ⟨fun h => decode_tooShort h, fun h hm => decode_badMagic h hm,
   fun h hm hc => decode_checksumMismatch h hm hc, fun h hm hc => decode_ok h hm hc⟩

theorem C3_validation_order_witness :
    decode (List.replicate 511 0) = .error .TooShort
    ∧ decode badMagicCtr = .error .BadMagic
    ∧ crc16 (badMagicCtr.drop 6) = readLE badMagicCtr 4 2
    ∧ decode mismatchCtr
        = .error (.ChecksumMismatch (readLE mismatchCtr 4 2) (crc16 (mismatchCtr.drop 6)))
    ∧ decode demoContainer = .ok
        { project_name := sliceBytes demoContainer 38 16
          version := sliceBytes demoContainer 6 32
          timestamp := readLE demoContainer 54 8
          size := readLE demoContainer 62 4 } := by
  refine ⟨(C3_validation_order _).1 (by simp), ?_, badMagicCtr_crc_matches, ?_, ?_⟩
  · exact (C3_validation_order badMagicCtr).2.1 (by rw [badMagicCtr_length])
      (by rw [badMagicCtr_magic]; norm_num [MAGIC_WORD])
  · exact (C3_validation_order mismatchCtr).2.2.1 (by rw [mismatchCtr_length])
      mismatchCtr_magic mismatchCtr_crc_differs
  · have hlen : 512 ≤ demoContainer.length := by
      rw [show demoContainer.length = 512 + (padTo8 demoPayload).length
        from shaped_length (by decide) (by decide)]
      omega
    have hm : readLE demoContainer 0 4 = MAGIC_WORD := by
      have hsl : sliceBytes demoContainer 0 4 = [0x32, 0x54, 0xCD, 0xAB] := rfl
      show leVal (sliceBytes demoContainer 0 4) = MAGIC_WORD
      rw [hsl]
      norm_num [leVal, MAGIC_WORD]
    have hc : crc16 (demoContainer.drop 6) = readLE demoContainer 4 2 := by
      have hdrop : demoContainer.drop 6 = encBody demoName demoVersion demoPayload 0 := rfl
      rw [hdrop, show readLE demoContainer 4 2
        = crc16 (encBody demoName demoVersion demoPayload 0)
        from shaped_readLE_crc (crc16_lt (encBody_bytes_lt (by decide) (by decide) (by decide)))]
    exact (C3_validation_order demoContainer).2.2.2 hlen hm hc

/-- Claim C4 (amended): for every container that decode accepts, the
returned Summary contains the project-name and version fields exactly as
stored in the header — the full fixed-size byte fields, trailing null
padding included, not stripped — together with the raw timestamp value
(rendered human-readable only by the display layer) and the size field. -/
theorem C4_summary_fields (bytes : List Nat) (s : Summary)
    (h : decode bytes = .ok s) :
    s.project_name = sliceBytes bytes 38 16
    ∧ s.version = sliceBytes bytes 6 32
    ∧ s.timestamp = readLE bytes 54 8
    ∧ s.size = readLE bytes 62 4 := by
  obtain ⟨-, -, -, hs⟩ := decode_ok_inv h
  subst hs
  exact ⟨rfl, rfl, rfl, rfl⟩

theorem C4_summary_fields_witness :
    demoSummary.project_name = sliceBytes demoContainer 38 16
    ∧ demoSummary.version = sliceBytes demoContainer 6 32
    ∧ demoSummary.timestamp = readLE demoContainer 54 8
    ∧ demoSummary.size = readLE demoContainer 62 4 :=
  C4_summary_fields demoContainer demoSummary decode_demoContainer

/-- Claim C4 fails as stated: the summary of an accepted container does not
have the trailing null padding stripped from the project name and version
strings — decode reports the full 16- and 32-byte fields. -/
theorem C4_counterexample :
    decode demoContainer = .ok demoSummary
    ∧ demoSummary.project_name ≠ stripTrailingNulls demoSummary.project_name
    ∧ demoSummary.version ≠ stripTrailingNulls demoSummary.version
    ∧ stripTrailingNulls demoSummary.project_name = demoName
    ∧ stripTrailingNulls demoSummary.version = demoVersion :=
  ⟨decode_demoContainer, by decide, by decide, by decide, by decide⟩

/-- Claim C5: for every payload, the padded payload has length equal to the
smallest multiple of 8 that is at least the payload length (so no padding
is added when the length is already a multiple of 8), every appended
padding byte is 0xFF, and the size field stored in the encoded container is
this padded length, not the raw payload length. -/
theorem C5_padding (pn ver payload : List Nat) (ts : Nat)
    (hp : pn.length ≤ 15) (hv : ver.length ≤ 31)
    (hlen : (padTo8 payload).length < 2 ^ 32) :
    (padTo8 payload).length = 8 * ((payload.length + 7) / 8)
    ∧ (padTo8 payload).take payload.length = payload
    ∧ (padTo8 payload).drop payload.length
        = List.replicate ((padTo8 payload).length - payload.length) 0xFF
    ∧ (payload.length % 8 = 0 → padTo8 payload = payload)
    ∧ ∀ buf, encode pn ver payload ts = .ok buf →
        readLE buf 62 4 = (padTo8 payload).length := by
  refine ⟨padTo8_length payload, ?_, ?_, ?_, ?_⟩
  · unfold padTo8
    exact List.take_left _ _
  · rw [padTo8_length]
    unfold padTo8
    rw [List.drop_left]
    congr 1
    omega
  · intro h
    unfold padTo8
    rw [h]
    simp
  · intro buf henc
    rw [encode_eq_shaped hp hv] at henc
    injection henc with h
    rw [← h, shaped_readLE_size hp hv, Nat.mod_eq_of_lt hlen]

theorem C5_padding_witness :
    (padTo8 demoPayload).length = 8
    ∧ (padTo8 demoPayload).drop demoPayload.length = List.replicate 5 0xFF
    ∧ readLE demoContainer 62 4 = 8 := by
  have h := C5_padding demoName demoVersion demoPayload 0 (by decide) (by decide) (by decide)
  refine ⟨by decide, by decide, ?_⟩
  rw [h.2.2.2.2 demoContainer encode_demo]
  decide

/-- Claim C6: encode fails with a FieldTooLong error naming the offending
field — checking the version string (the git hash) first — whenever the
project name exceeds 15 bytes or the version string exceeds 31 bytes, and
produces no container; inputs of exactly 15 and 31 bytes are accepted. -/
theorem C6_field_too_long (pn ver payload : List Nat) (ts : Nat) :
    (31 < ver.length → encode pn ver payload ts = .error (.FieldTooLong "version"))
    ∧ (ver.length ≤ 31 → 15 < pn.length →
        encode pn ver payload ts = .error (.FieldTooLong "project name"))
    ∧ (ver.length ≤ 31 → pn.length ≤ 15 →
        ∃ buf, encode pn ver payload ts = .ok buf) := by
  refine ⟨fun h => ?_, fun hv hp => ?_, fun hv hp => ?_⟩
  · unfold encode
    rw [if_pos h]
  · unfold encode
    rw [if_neg (by omega), if_pos hp]
  · exact ⟨_, encode_eq hp hv⟩

theorem C6_field_too_long_witness :
    encode (List.replicate 16 97) (List.replicate 32 98) demoPayload 0
      = .error (.FieldTooLong "version")
    ∧ encode (List.replicate 16 97) (List.replicate 31 98) demoPayload 0
      = .error (.FieldTooLong "project name")
    ∧ ∃ buf, encode (List.replicate 15 97) (List.replicate 31 98) demoPayload 0
        = .ok buf :=
  ⟨(C6_field_too_long (List.replicate 16 97) (List.replicate 32 98) demoPayload 0).1
      (by decide),
   (C6_field_too_long (List.replicate 16 97) (List.replicate 31 98) demoPayload 0).2.1
      (by decide) (by decide),
   (C6_field_too_long (List.replicate 15 97) (List.replicate 31 98) demoPayload 0).2.2
      (by decide) (by decide)⟩

/-- Claim C7: for every container that decode accepts, flipping any single
bit of any byte at offset 6 or greater makes decode fail with
ChecksumMismatch, reporting the stored (expected) checksum and the
recomputed (actual) one; bytes at offsets 0-5 are excluded from the
checksummed range, so flipping them never changes the recomputed CRC. -/
theorem C7_checksum_sensitivity (bytes : List Nat) (s : Summary) (i k : Nat)
    (hdec : decode bytes = .ok s) (h6 : 6 ≤ i) (hi : i < bytes.length) (hk : k < 8) :
    decode (flipBit bytes i k)
      = .error (.ChecksumMismatch (readLE bytes 4 2) (crc16 ((flipBit bytes i k).drop 6)))
    ∧ ∀ j m, j < 6 → crc16 ((flipBit bytes j m).drop 6) = crc16 (bytes.drop 6) := by
  obtain ⟨h512, hm, hc, -⟩ := decode_ok_inv hdec
  constructor
  · have hlen : 512 ≤ (flipBit bytes i k).length := by
      simp [flipBit]
      omega
    have hm2 : readLE (flipBit bytes i k) 0 4 = MAGIC_WORD := by
      unfold flipBit readLE
      rw [sliceBytes_set_ge (by omega)]
      exact hm
    have hst : readLE (flipBit bytes i k) 4 2 = readLE bytes 4 2 := by
      unfold flipBit readLE
      rw [sliceBytes_set_ge (by omega)]
    have hcne : crc16 ((flipBit bytes i k).drop 6) ≠ readLE (flipBit bytes i k) 4 2 := by
      rw [hst, ← hc]
      exact crc16_flipBit_ne h6 hi hk
    rw [decode_checksumMismatch hlen hm2 hcne, hst]
  · intro j m hj
    unfold flipBit
    rw [List.drop_set, if_pos (by omega)]

theorem C7_checksum_sensitivity_witness :
    decode (flipBit demoContainer 512 0)
      = .error (.ChecksumMismatch (readLE demoContainer 4 2)
          (crc16 ((flipBit demoContainer 512 0).drop 6))) :=
  (C7_checksum_sensitivity demoContainer demoSummary 512 0 decode_demoContainer
    (by decide)
    (by rw [show demoContainer.length = 512 + (padTo8 demoPayload).length
        from shaped_length (by decide) (by decide)]
        decide)
    (by decide)).1

/-- Claim C8 (amended): encoding project name "demo", version "abc123" and
payload [0x01, 0x02, 0x03] yields a 520-byte container whose padded
payload is the 8 bytes 01 02 03 FF FF FF FF FF and whose size field is 8;
decoding it succeeds with size 8, but the reported project and version are
the full header fields "demo" and "abc123" followed by their null
padding. -/
theorem C8_concrete :
    demoContainer.length = 520
    ∧ demoContainer.drop 512 = [1, 2, 3, 0xFF, 0xFF, 0xFF, 0xFF, 0xFF]
    ∧ readLE demoContainer 62 4 = 8
    ∧ encode demoName demoVersion demoPayload 0 = .ok demoContainer
    ∧ decode demoContainer = .ok demoSummary
    ∧ demoSummary.size = 8
    ∧ demoSummary.project_name = demoName ++ List.replicate 12 0
    ∧ demoSummary.version = demoVersion ++ List.replicate 26 0 := by
  refine ⟨?_, ?_, ?_, encode_demo, decode_demoContainer, by decide, by decide, by decide⟩
  · rw [show demoContainer.length = 512 + (padTo8 demoPayload).length
      from shaped_length (by decide) (by decide)]
    decide
  · rw [show demoContainer.drop 512 = padTo8 demoPayload
      from shaped_drop512 (by decide) (by decide)]
    decide
  · rw [show readLE demoContainer 62 4 = (padTo8 demoPayload).length % 2 ^ 32
      from shaped_readLE_size (by decide) (by decide)]
    decide

/-- Claim C8 fails as stated: decoding the demo container does not return
the bare strings "demo" and "abc123" — the summary fields carry the
trailing null padding of the fixed-size header fields. -/
theorem C8_counterexample :
    decode demoContainer = .ok demoSummary
    ∧ demoSummary.project_name ≠ demoName
    ∧ demoSummary.version ≠ demoVersion :=
  ⟨decode_demoContainer, by decide, by decide⟩

/-- Claim C9: once the length check has passed, structural parsing of the
512-byte header always succeeds — every field of the packed OtaHead type
admits every bit pattern — so the Malformed branch of decode is
unreachable. -/
theorem C9_parse_total (bytes : List Nat) (h : 512 ≤ bytes.length) :
    (OtaHead.tryReadFromBytes (bytes.take 512)).isSome = true
    ∧ decode bytes ≠ .error .Malformed := by
  constructor
  · rw [tryReadFromBytes_take h]
    rfl
  · rw [decode_eq_of_length h]
    split
    · simp
    · split <;> simp

theorem C9_parse_total_witness :
    (OtaHead.tryReadFromBytes ((List.replicate 512 0).take 512)).isSome = true
    ∧ decode (List.replicate 512 0) ≠ .error .Malformed :=
  C9_parse_total (List.replicate 512 0) (by simp)

/-- Claim C10: decode never compares the size field with the actual payload
length: the hand-built container sizeLieCtr is exactly 512 bytes long (zero
payload bytes) yet decode accepts it and reports its size field 100
unchanged. -/
theorem C10_size_not_checked :
    decode sizeLieCtr = .ok
      { project_name := sliceBytes sizeLieCtr 38 16
        version := sliceBytes sizeLieCtr 6 32
        timestamp := readLE sizeLieCtr 54 8
        size := 100 }
    ∧ sizeLieCtr.length = 512
    ∧ sizeLieCtr.length - 512 ≠ 100 := by
  refine ⟨?_, sizeLieCtr_length, ?_⟩
  · rw [← sizeLieCtr_size]
    exact decode_ok (by rw [sizeLieCtr_length]) sizeLieCtr_magic sizeLieCtr_crc_matches
  · rw [sizeLieCtr_length]
    decide
